import Mathlib

/-!
Shallow embedding of the event model of `packit_service/worker/events/event.py`:
the `EventData` transport codec, the `Event` / `AbstractForgeIndependentEvent`
serialization (`get_dict`), lazy memoized properties, the most-recent-per-target
reduction over build/test run records, and the job-config trigger-type classifier.

Python conventions modelled explicitly:
  * `dict.get(k)` returns `None` both for an absent key and for a key stored
    with the value `None`; both are `none` of an `Option`.
  * Python truthiness: `None`, `""`, `0` and empty collections are falsy; this
    is modelled by explicit truthiness predicates on `Option` values.
  * `datetime` values are modelled by their integer epoch seconds, which is how
    they cross the transport boundary (`int(t.timestamp())`).
-/

/-- The `JobConfigTriggerType` enum from packit config (categories used by
`use_for_job_config_trigger` and stored on db triggers). -/
inductive JobConfigTriggerType where
  | release
  | pull_request
  | commit
deriving DecidableEq, Repr

/-- A persisted db trigger (`AbstractTriggerDbType`): its row id, its project's
url (used for the `project_url` fallback in `get_dict`) and its stored
`job_config_trigger_type`. -/
structure AbstractTriggerDbType where
  id : Int
  project_url : String
  job_config_trigger_type : JobConfigTriggerType
deriving DecidableEq, Repr

/-- A forge project handle (`ogr` `GitProject`); only the repo name is
relevant here (`self.project.repo`). -/
structure GitProject where
  repo : Option String
deriving DecidableEq, Repr

/-- `CoprBuildTargetModel`: build record with `build_submitted_time`. -/
structure CoprBuildTargetModel where
  target : String
  build_submitted_time : Nat
  status : String
deriving DecidableEq, Repr

/-- `TFTTestRunTargetModel`: test-run record with `submitted_time`. -/
structure TFTTestRunTargetModel where
  target : String
  submitted_time : Nat
  status : String
deriving DecidableEq, Repr

/-- The `Union[CoprBuildTargetModel, TFTTestRunTargetModel]` of the record
arguments of `get_most_recent_targets` and friends. -/
inductive RunModel where
  | copr : CoprBuildTargetModel → RunModel
  | tft : TFTTestRunTargetModel → RunModel
deriving DecidableEq, Repr

def RunModel.target : RunModel → String
  | .copr m => m.target
  | .tft m => m.target

def RunModel.status : RunModel → String
  | .copr m => m.status
  | .tft m => m.status

/-- `AbstractForgeIndependentEvent._get_submitted_time_from_model`: dispatch on
the record kind (`isinstance(model, CoprBuildTargetModel)`) to pick the
submission-time field. -/
def _get_submitted_time_from_model : RunModel → Nat
  | .copr m => m.build_submitted_time
  | .tft m => m.submitted_time

/-- Python truthiness of an optional string: `None` and `""` are falsy. -/
def strTruthy : Option String → Bool
  | none => false
  | some s => !(s == "")

/-- Python truthiness of an optional int: `None` and `0` are falsy. -/
def intTruthy : Option Int → Bool
  | none => false
  | some n => !(n == 0)

/-- Python `a or b` on optional strings (used for `user_login or actor` and
`project_url or ...`). -/
def py_or_str (a b : Option String) : Option String :=
  if strTruthy a then a else b

/-- Python `a or b` on optional ints (used for `_pr_id or pr_id`). -/
def py_or_int (a b : Option Int) : Option Int :=
  if intTruthy a then a else b

/-- `EventData.__init__` override normalization:
`set(x) if x else None` — `None` and the empty list both become `None`,
a non-empty list becomes the set of its members (kept here as the list,
compared by membership). -/
def normalize_override (o : Option (List String)) : Option (List String) :=
  match o with
  | some l => if l.isEmpty then none else some l
  | none => none

/-- The override emission of `Event.get_dict`:
`if self.build_targets_override: d[...] = list(self.build_targets_override)` —
the key is written only when the override set is truthy (non-`None` and
non-empty); otherwise it is absent from the outgoing dict. -/
def serialize_override (o : Option (List String)) : Option (List String) :=
  match o with
  | some l => if l.isEmpty then none else some l
  | none => none

/-- The transport dict produced by `Event.get_dict` and consumed by
`EventData.from_event_dict`; every field is the value `event.get(key)` would
return (`none` = key absent or stored as `None`). -/
structure EventDict where
  event_type : Option String
  user_login : Option String
  actor : Option String
  trigger_id : Option Int
  project_url : Option String
  tag_name : Option String
  git_ref : Option String
  _pr_id : Option Int
  pr_id : Option Int
  commit_sha : Option String
  identifier : Option String
  issue_id : Option Int
  task_accepted_time : Option Int
  created_at : Option Int
  build_targets_override : Option (List String)
  tests_targets_override : Option (List String)
  branches_override : Option (List String)
deriving DecidableEq, Repr

/-- The `EventData` object after `__init__` (overrides already normalized). -/
structure EventData where
  event_type : Option String
  actor : Option String
  trigger_id : Option Int
  project_url : Option String
  tag_name : Option String
  git_ref : Option String
  pr_id : Option Int
  commit_sha : Option String
  identifier : Option String
  issue_id : Option Int
  task_accepted_time : Option Int
  build_targets_override : Option (List String)
  tests_targets_override : Option (List String)
  branches_override : Option (List String)
deriving DecidableEq, Repr

/-- `EventData.from_event_dict`: read each key with `.get`, accept the legacy
`user_login` before `actor`, accept `_pr_id` before the `pr_id` getter name,
rebuild `task_accepted_time` from epoch seconds only when truthy, and let
`EventData.__init__` normalize the three override lists. -/
def EventData.from_event_dict (d : EventDict) : EventData :=
  { event_type := d.event_type
  , actor := py_or_str d.user_login d.actor
  , trigger_id := d.trigger_id
  , project_url := d.project_url
  , tag_name := d.tag_name
  , git_ref := d.git_ref
  , pr_id := py_or_int d._pr_id d.pr_id
  , commit_sha := d.commit_sha
  , identifier := d.identifier
  , issue_id := d.issue_id
  , task_accepted_time :=
      match d.task_accepted_time with
      | some n => if n == 0 then none else some n
      | none => none
  , build_targets_override := normalize_override d.build_targets_override
  , tests_targets_override := normalize_override d.tests_targets_override
  , branches_override := normalize_override d.branches_override }

/-- The instance state of a concrete `AbstractForgeIndependentEvent` at the
moment `get_dict` is called: the serializable attributes of `__dict__`, the
cached `_db_trigger`, the result `get_db_trigger()` would produce if invoked
(`db_lookup`), and the values of the three override properties. -/
structure AbstractForgeIndependentEvent where
  event_class_name : String
  created_at : Int
  task_accepted_time : Option Int
  actor : Option String
  project_url : Option String
  _pr_id : Option Int
  commit_sha : Option String
  tag_name : Option String
  git_ref : Option String
  identifier : Option String
  issue_id : Option Int
  _db_trigger : Option AbstractTriggerDbType
  db_lookup : Option AbstractTriggerDbType
  build_targets_override : Option (List String)
  tests_targets_override : Option (List String)
  branches_override : Option (List String)
deriving DecidableEq, Repr

/-- The `Event.db_trigger` property: return the cached `_db_trigger` if set,
otherwise resolve via `get_db_trigger()` (modelled by `db_lookup`). -/
def Event.db_trigger_property (e : AbstractForgeIndependentEvent) :
    Option AbstractTriggerDbType :=
  match e._db_trigger with
  | some t => some t
  | none => e.db_lookup

/-- `Event.get_dict` (with the `AbstractForgeIndependentEvent.get_dict` pops):
deep-copy of `__dict__` with `event_type` injected, `trigger_id` read from the
cached `_db_trigger` only (`self._db_trigger.id if self._db_trigger else None`),
timestamps as epoch seconds, the `project_url` fallback through the
`db_trigger` property when the stored url is falsy, and the truthy override
sets written as lists. -/
def Event.get_dict (e : AbstractForgeIndependentEvent) : EventDict :=
  { event_type := some e.event_class_name
  , user_login := none
  , actor := e.actor
  , trigger_id := e._db_trigger.map (fun t => t.id)
  , project_url :=
      if strTruthy e.project_url then e.project_url
      else (Event.db_trigger_property e).map (fun t => t.project_url)
  , tag_name := e.tag_name
  , git_ref := e.git_ref
  , _pr_id := e._pr_id
  , pr_id := none
  , commit_sha := e.commit_sha
  , identifier := e.identifier
  , issue_id := e.issue_id
  , task_accepted_time := e.task_accepted_time
  , created_at := some e.created_at
  , build_targets_override := serialize_override e.build_targets_override
  , tests_targets_override := serialize_override e.tests_targets_override
  , branches_override := serialize_override e.branches_override }

/-- A lazy memoized property with a plain `None` sentinel, as in
`Event.db_trigger`, `AbstractForgeIndependentEvent.project` and
`base_project`:

```
if not self._x:
    self._x = self.compute()
return self._x
```

Given the current cache and the value `compute()` would return, produce
(returned value, new cache, number of times `compute()` ran). -/
def lazy_property_get {α : Type} (cache : Option α) (compute : Option α) :
    Option α × Option α × Nat :=
  match cache with
  | none => (compute, compute, 1)
  | some v => (some v, some v, 0)

/-- The `package_config` property, which also keeps a
`_package_config_searched` flag:

```
if not self._package_config_searched and not self._package_config:
    self._package_config = self.get_package_config()
    self._package_config_searched = True
return self._package_config
```

Given cache, flag and the value `get_package_config()` would return, produce
(returned value, (new cache, new flag), number of times the fetch ran). -/
def package_config_property_get {α : Type} (cache : Option α) (searched : Bool)
    (compute : Option α) : Option α × (Option α × Bool) × Nat :=
  if !searched && cache.isNone then (compute, (compute, true), 1)
  else (cache, (cache, searched), 0)

/-- `AbstractForgeIndependentEvent.get_project`: none when both `project_url`
and the `db_trigger` property are falsy, otherwise resolve
`self.project_url or self.db_trigger.project.project_url` through the service
config (`resolve`). -/
def get_project (project_url : Option String)
    (db_trigger : Option AbstractTriggerDbType)
    (resolve : String → Option GitProject) : Option GitProject :=
  if strTruthy project_url then resolve (project_url.getD "")
  else
    match db_trigger with
    | some t => resolve t.project_url
    | none => none

/-- `EventData.get_project`: none when `project_url` is falsy, otherwise
resolve it (the `or` fallback can never be taken there since `project_url` is
truthy). -/
def EventData.get_project (project_url : Option String)
    (resolve : String → Option GitProject) : Option GitProject :=
  if strTruthy project_url then resolve (project_url.getD "") else none

/-- Association-list read, the behaviour of `most_recent_models.get(target)`
on the insertion-ordered Python dict. -/
def lookupA : List (String × RunModel) → String → Option RunModel
  | [], _ => none
  | (k, v) :: rest, t => if k = t then some v else lookupA rest t

/-- Association-list write, the behaviour of
`most_recent_models[target] = model`: replace in place when the key exists,
append otherwise. -/
def updateA : List (String × RunModel) → String → RunModel → List (String × RunModel)
  | [], k, v => [(k, v)]
  | (k0, v0) :: rest, k, v =>
      if k0 = k then (k, v) :: rest else (k0, v0) :: updateA rest k v

/-- One iteration of the loop of `get_most_recent_targets`: store the record
when its target is unseen or its submission time is strictly greater than the
stored record's. -/
def most_recent_step (acc : List (String × RunModel)) (m : RunModel) :
    List (String × RunModel) :=
  match lookupA acc m.target with
  | none => updateA acc m.target m
  | some prev =>
      if _get_submitted_time_from_model prev < _get_submitted_time_from_model m then
        updateA acc m.target m
      else acc

/-- The `most_recent_models` dict built by `get_most_recent_targets`. -/
def most_recent_models (models : List RunModel) : List (String × RunModel) :=
  models.foldl most_recent_step []

/-- `AbstractForgeIndependentEvent.get_most_recent_targets`:
`list(most_recent_models.values())`. -/
def get_most_recent_targets (models : List RunModel) : List RunModel :=
  (most_recent_models models).map Prod.snd

/-- Python `set.add`: append only when absent. -/
def setAdd (s : List String) (x : String) : List String :=
  if x ∈ s then s else s ++ [x]

/-- `AbstractForgeIndependentEvent._filter_most_recent_models_targets_by_status`:
collect the targets of the most-recent representatives whose status is in the
filter list; return `None` instead of an empty set. -/
def _filter_most_recent_models_targets_by_status (models : List RunModel)
    (statuses_to_filter_with : List String) : Option (List String) :=
  let failed_models_targets :=
    (get_most_recent_targets models).foldl
      (fun acc m =>
        if m.status ∈ statuses_to_filter_with then setAdd acc m.target else acc)
      []
  if failed_models_targets.isEmpty then none else some failed_models_targets

/-- `AbstractForgeIndependentEvent.get_all_tf_targets_by_status`: short-circuit
to `None` when `commit_sha is None`, otherwise filter the test-run records the
store holds for that commit (`TFTTestRunTargetModel.get_all_by_commit_target`).
-/
def get_all_tf_targets_by_status (commit_sha : Option String)
    (tf_store : String → List RunModel)
    (statuses_to_filter_with : List String) : Option (List String) :=
  match commit_sha with
  | none => none
  | some sha =>
      _filter_most_recent_models_targets_by_status (tf_store sha)
        statuses_to_filter_with

/-- `AbstractForgeIndependentEvent.get_all_build_targets_by_status`:
short-circuit to `None` when `commit_sha is None` or the resolved project's
`repo` is `None`, otherwise filter the build records the store holds for that
commit (`CoprBuildTargetModel.get_all_by_commit`). -/
def get_all_build_targets_by_status (commit_sha : Option String)
    (project_repo : Option String) (copr_store : String → List RunModel)
    (statuses_to_filter_with : List String) : Option (List String) :=
  match commit_sha, project_repo with
  | none, _ => none
  | some _, none => none
  | some sha, some _ =>
      _filter_most_recent_models_targets_by_status (copr_store sha)
        statuses_to_filter_with

/-- The first registered entry of `MAP_EVENT_TO_JOB_CONFIG_TRIGGER_TYPE`
matching the event (`isinstance(self, event_cls)` = the registered class name
occurs in the event class's mro). -/
def lookup_registered_trigger_type :
    List (String × JobConfigTriggerType) → List String → Option JobConfigTriggerType
  | [], _ => none
  | (cls, t) :: rest, mro =>
      if cls ∈ mro then some t else lookup_registered_trigger_type rest mro

/-- `Event.job_config_trigger_type`: scan the registration table first; only
when no registered class matches, fall back to the resolved db trigger's
stored type, or `None` (with a warning) when no trigger resolves. -/
def job_config_trigger_type (table : List (String × JobConfigTriggerType))
    (mro : List String) (db_trigger : Option AbstractTriggerDbType) :
    Option JobConfigTriggerType :=
  match lookup_registered_trigger_type table mro with
  | some t => some t
  | none =>
      match db_trigger with
      | some db => some db.job_config_trigger_type
      | none => none

/-- Loop invariant of `get_most_recent_targets`: after processing the records
`p`, the dict `acc` has pairwise-distinct keys, each stored record is one of
the processed records, carries its own target as its key and has a
submission time that is at least every processed same-target record's, and
every processed record's target has an entry. -/
def MostRecentInv (p : List RunModel) (acc : List (String × RunModel)) : Prop :=
  (acc.map Prod.fst).Nodup ∧
  (∀ kv ∈ acc, kv.2.target = kv.1 ∧ kv.2 ∈ p ∧
    ∀ m ∈ p, m.target = kv.1 →
      _get_submitted_time_from_model m ≤ _get_submitted_time_from_model kv.2) ∧
  (∀ m ∈ p, m.target ∈ acc.map Prod.fst)

/-- A fully populated sample event used to instantiate the round-trip. -/
def sample_event : AbstractForgeIndependentEvent :=
  { event_class_name := "PullRequestGithubEvent"
  , created_at := 100
  , task_accepted_time := some 50
  , actor := some "somebody"
  , project_url := some "https://github.com/ns/repo"
  , _pr_id := some 42
  , commit_sha := some "abcdef"
  , tag_name := some "v1"
  , git_ref := some "main"
  , identifier := some "42"
  , issue_id := some 7
  , _db_trigger := none
  , db_lookup := none
  , build_targets_override := some ["fedora-rawhide-x86_64"]
  , tests_targets_override := some ["fedora-35-x86_64"]
  , branches_override := some ["f34"]
  }

theorem lookupA_eq_none (l : List (String × RunModel)) (t : String) :
    lookupA l t = none ↔ t ∉ l.map Prod.fst := by
  induction l with
  | nil => simp [lookupA]
  | cons kv rest ih =>
      obtain ⟨k, v⟩ := kv
      by_cases hk : k = t
      · subst hk
        simp [lookupA]
      · simp only [lookupA, if_neg hk, List.map_cons, List.mem_cons]
        rw [ih]
        constructor
        · intro h hc
          rcases hc with hc | hc
          · exact hk hc.symm
          · exact h hc
        · intro h
          exact fun hm => h (Or.inr hm)

theorem lookupA_mem (l : List (String × RunModel)) (t : String) (v : RunModel)
    (h : lookupA l t = some v) : (t, v) ∈ l := by
  induction l with
  | nil => simp [lookupA] at h
  | cons kv rest ih =>
      obtain ⟨k, w⟩ := kv
      by_cases hk : k = t
      · subst hk
        simp [lookupA] at h
        subst h
        exact List.mem_cons_self _ _
      · simp [lookupA, hk] at h
        exact List.mem_cons_of_mem _ (ih h)

theorem mem_lookupA (l : List (String × RunModel)) (t : String) (v : RunModel)
    (hnd : (l.map Prod.fst).Nodup) (h : (t, v) ∈ l) : lookupA l t = some v := by
  induction l with
  | nil => simp at h
  | cons kv rest ih =>
      obtain ⟨k, w⟩ := kv
      rw [List.map_cons, List.nodup_cons] at hnd
      rcases List.mem_cons.mp h with heq | hmem
      · rw [Prod.mk.injEq] at heq
        obtain ⟨h1, h2⟩ := heq
        subst h1; subst h2
        simp [lookupA]
      · have ht : ¬ k = t := by
          intro hkt
          subst hkt
          have hkm : k ∈ List.map Prod.fst rest := List.mem_map_of_mem Prod.fst hmem
          exact hnd.1 hkm
        simp [lookupA, ht]
        exact ih hnd.2 hmem

theorem updateA_of_not_mem (l : List (String × RunModel)) (t : String)
    (v : RunModel) (h : t ∉ l.map Prod.fst) : updateA l t v = l ++ [(t, v)] := by
  induction l with
  | nil => simp [updateA]
  | cons kv rest ih =>
      obtain ⟨k, w⟩ := kv
      rw [List.map_cons, List.mem_cons] at h
      push_neg at h
      have hk : ¬ k = t := fun hh => h.1 hh.symm
      simp only [updateA, if_neg hk]
      rw [ih h.2]
      rfl

theorem map_fst_updateA_of_mem (l : List (String × RunModel)) (t : String)
    (v : RunModel) (h : t ∈ l.map Prod.fst) :
    (updateA l t v).map Prod.fst = l.map Prod.fst := by
  induction l with
  | nil => simp at h
  | cons kv rest ih =>
      obtain ⟨k, w⟩ := kv
      by_cases hk : k = t
      · subst hk
        simp [updateA]
      · rw [List.map_cons, List.mem_cons] at h
        rcases h with h | h
        · exact absurd h.symm hk
        · simp [updateA, hk, ih h]

theorem mem_updateA_nodup (l : List (String × RunModel)) (t : String)
    (v : RunModel) (kv : String × RunModel)
    (hnd : (l.map Prod.fst).Nodup) (h : kv ∈ updateA l t v) :
    kv = (t, v) ∨ (kv ∈ l ∧ kv.1 ≠ t) := by
  induction l with
  | nil =>
      simp [updateA] at h
      left
      exact h
  | cons p rest ih =>
      obtain ⟨k, w⟩ := p
      rw [List.map_cons, List.nodup_cons] at hnd
      by_cases hk : k = t
      · subst hk
        simp only [updateA, if_pos rfl] at h
        rcases List.mem_cons.mp h with h | h
        · left; exact h
        · right
          refine ⟨List.mem_cons_of_mem _ h, ?_⟩
          intro hkv
          have hkm : kv.1 ∈ List.map Prod.fst rest := List.mem_map_of_mem Prod.fst h
          rw [hkv] at hkm
          exact absurd hkm hnd.1
      · simp only [updateA, if_neg hk] at h
        rcases List.mem_cons.mp h with h | h
        · right
          subst h
          exact ⟨List.mem_cons_self _ _, hk⟩
        · rcases ih hnd.2 h with h2 | h2
          · left; exact h2
          · right; exact ⟨List.mem_cons_of_mem _ h2.1, h2.2⟩

theorem mostRecentInv_step (p : List RunModel) (acc : List (String × RunModel))
    (m : RunModel) (h : MostRecentInv p acc) :
    MostRecentInv (p ++ [m]) (most_recent_step acc m) := by
  obtain ⟨hnd, hmem, hcov⟩ := h
  cases hl : lookupA acc m.target with
  | none =>
      have hnotin : m.target ∉ acc.map Prod.fst := (lookupA_eq_none acc m.target).mp hl
      have hstep : most_recent_step acc m = acc ++ [(m.target, m)] := by
        unfold most_recent_step
        rw [hl]
        exact updateA_of_not_mem acc m.target m hnotin
      rw [hstep]
      refine ⟨?_, ?_, ?_⟩
      · rw [List.map_append]
        rw [List.nodup_append]
        refine ⟨hnd, List.nodup_singleton _, ?_⟩
        intro a ha hb
        rw [List.map_singleton, List.mem_singleton] at hb
        subst hb
        exact hnotin ha
      · intro kv hkv
        rcases List.mem_append.mp hkv with hkv | hkv
        · obtain ⟨h1, h2, h3⟩ := hmem kv hkv
          refine ⟨h1, List.mem_append_left _ h2, ?_⟩
          intro m2 hm2 hm2t
          rcases List.mem_append.mp hm2 with hm2 | hm2
          · exact h3 m2 hm2 hm2t
          · rw [List.mem_singleton] at hm2
            rw [hm2] at hm2t
            have hk1 : kv.1 ∈ acc.map Prod.fst := List.mem_map_of_mem Prod.fst hkv
            rw [← hm2t] at hk1
            exact absurd hk1 hnotin
        · rw [List.mem_singleton] at hkv
          subst hkv
          refine ⟨rfl, List.mem_append_right _ (List.mem_singleton_self _), ?_⟩
          intro m2 hm2 hm2t
          rcases List.mem_append.mp hm2 with hm2 | hm2
          · have h5 : m2.target ∈ acc.map Prod.fst := hcov m2 hm2
            rw [hm2t] at h5
            exact absurd h5 hnotin
          · rw [List.mem_singleton] at hm2
            rw [hm2]
      · intro m2 hm2
        rw [List.map_append]
        rcases List.mem_append.mp hm2 with hm2 | hm2
        · exact List.mem_append_left _ (hcov m2 hm2)
        · rw [List.mem_singleton] at hm2
          rw [hm2]
          exact List.mem_append_right _ (by simp)
  | some prev =>
      have hprevmem : (m.target, prev) ∈ acc := lookupA_mem _ _ _ hl
      obtain ⟨hp1, hp2, hp3⟩ := hmem (m.target, prev) hprevmem
      have hin : m.target ∈ acc.map Prod.fst :=
        List.mem_map_of_mem Prod.fst hprevmem
      by_cases htime :
          _get_submitted_time_from_model prev < _get_submitted_time_from_model m
      · have hstep : most_recent_step acc m = updateA acc m.target m := by
          unfold most_recent_step
          rw [hl]
          exact if_pos htime
        rw [hstep]
        refine ⟨?_, ?_, ?_⟩
        · rw [map_fst_updateA_of_mem acc m.target m hin]
          exact hnd
        · intro kv hkv
          rcases mem_updateA_nodup acc m.target m kv hnd hkv with hkv | ⟨hkv, hne⟩
          · subst hkv
            refine ⟨rfl, List.mem_append_right _ (List.mem_singleton_self _), ?_⟩
            intro m2 hm2 hm2t
            rcases List.mem_append.mp hm2 with hm2 | hm2
            · exact le_of_lt (lt_of_le_of_lt (hp3 m2 hm2 hm2t) htime)
            · rw [List.mem_singleton] at hm2
              rw [hm2]
          · obtain ⟨h1, h2, h3⟩ := hmem kv hkv
            refine ⟨h1, List.mem_append_left _ h2, ?_⟩
            intro m2 hm2 hm2t
            rcases List.mem_append.mp hm2 with hm2 | hm2
            · exact h3 m2 hm2 hm2t
            · rw [List.mem_singleton] at hm2
              rw [hm2] at hm2t
              exact absurd hm2t.symm hne
        · intro m2 hm2
          rw [map_fst_updateA_of_mem acc m.target m hin]
          rcases List.mem_append.mp hm2 with hm2 | hm2
          · exact hcov m2 hm2
          · rw [List.mem_singleton] at hm2
            rw [hm2]
            exact hin
      · have hstep : most_recent_step acc m = acc := by
          unfold most_recent_step
          rw [hl]
          exact if_neg htime
        rw [hstep]
        refine ⟨hnd, ?_, ?_⟩
        · intro kv hkv
          obtain ⟨h1, h2, h3⟩ := hmem kv hkv
          refine ⟨h1, List.mem_append_left _ h2, ?_⟩
          intro m2 hm2 hm2t
          rcases List.mem_append.mp hm2 with hm2 | hm2
          · exact h3 m2 hm2 hm2t
          · rw [List.mem_singleton] at hm2
            rw [hm2] at hm2t
            rw [hm2]
            have hkva : (kv.1, kv.2) ∈ acc := by
              rw [Prod.mk.eta]
              exact hkv
            have hlkv : lookupA acc kv.1 = some kv.2 :=
              mem_lookupA acc kv.1 kv.2 hnd hkva
            rw [← hm2t] at hlkv
            rw [hl] at hlkv
            have hprev : prev = kv.2 := by
              injection hlkv
            have hle : _get_submitted_time_from_model m ≤
                _get_submitted_time_from_model prev := Nat.le_of_not_lt htime
            rw [hprev] at hle
            exact hle
        · intro m2 hm2
          rcases List.mem_append.mp hm2 with hm2 | hm2
          · exact hcov m2 hm2
          · rw [List.mem_singleton] at hm2
            rw [hm2]
            exact hin

theorem mostRecentInv_foldl (rest : List RunModel) :
    ∀ (p : List RunModel) (acc : List (String × RunModel)),
      MostRecentInv p acc →
        MostRecentInv (p ++ rest) (rest.foldl most_recent_step acc) := by
  induction rest with
  | nil =>
      intro p acc h
      simpa using h
  | cons m rest ih =>
      intro p acc h
      have h2 := ih (p ++ [m]) (most_recent_step acc m) (mostRecentInv_step p acc m h)
      rw [List.append_assoc] at h2
      simpa using h2

theorem mostRecentInv_models (models : List RunModel) :
    MostRecentInv models (most_recent_models models) := by
  have h := mostRecentInv_foldl models [] []
      ⟨List.nodup_nil, by intro kv hkv; simp at hkv, by intro m hm; simp at hm⟩
  simpa [most_recent_models] using h

theorem mem_setAdd (s : List String) (x t : String) :
    t ∈ setAdd s x ↔ t ∈ s ∨ t = x := by
  unfold setAdd
  by_cases h : x ∈ s
  · rw [if_pos h]
    constructor
    · exact Or.inl
    · rintro (h1 | h1)
      · exact h1
      · rw [h1]
        exact h
  · rw [if_neg h]
    rw [List.mem_append, List.mem_singleton]

theorem mem_status_fold (statuses : List String) (l : List RunModel) :
    ∀ (acc : List String) (t : String),
      (t ∈ l.foldl
          (fun acc m =>
            if m.status ∈ statuses then setAdd acc m.target else acc) acc
        ↔ t ∈ acc ∨ ∃ m, m ∈ l ∧ m.status ∈ statuses ∧ m.target = t) := by
  induction l with
  | nil =>
      intro acc t
      simp
  | cons m rest ih =>
      intro acc t
      rw [List.foldl_cons]
      by_cases hs : m.status ∈ statuses
      · rw [if_pos hs, ih, mem_setAdd]
        constructor
        · rintro ((h | h) | ⟨m2, hm2, hst, htg⟩)
          · exact Or.inl h
          · exact Or.inr ⟨m, List.mem_cons_self _ _, hs, h.symm⟩
          · exact Or.inr ⟨m2, List.mem_cons_of_mem _ hm2, hst, htg⟩
        · rintro (h | ⟨m2, hm2, hst, htg⟩)
          · exact Or.inl (Or.inl h)
          · rcases List.mem_cons.mp hm2 with hm2 | hm2
            · subst hm2
              exact Or.inl (Or.inr htg.symm)
            · exact Or.inr ⟨m2, hm2, hst, htg⟩
      · rw [if_neg hs, ih]
        constructor
        · rintro (h | ⟨m2, hm2, hst, htg⟩)
          · exact Or.inl h
          · exact Or.inr ⟨m2, List.mem_cons_of_mem _ hm2, hst, htg⟩
        · rintro (h | ⟨m2, hm2, hst, htg⟩)
          · exact Or.inl h
          · rcases List.mem_cons.mp hm2 with hm2 | hm2
            · subst hm2
              exact absurd hst hs
            · exact Or.inr ⟨m2, hm2, hst, htg⟩

/-- Claim C1: serialization round-trip. For every event whose identifying
fields and override sets are populated (truthy `project_url`, truthy `_pr_id`,
non-empty override lists), `EventData.from_event_dict (event.get_dict())`
reconstructs `project_url`, `commit_sha`, `pr_id`, `tag_name` and `git_ref`,
and transports each override set unchanged (hence with the same membership). -/
theorem c1_round_trip (e : AbstractForgeIndependentEvent)
    (hurl : strTruthy e.project_url = true)
    (hpr : intTruthy e._pr_id = true)
    (lb lt2 lbr : List String)
    (hb : e.build_targets_override = some lb) (hbne : lb ≠ [])
    (ht : e.tests_targets_override = some lt2) (htne : lt2 ≠ [])
    (hbr : e.branches_override = some lbr) (hbrne : lbr ≠ []) :
    (EventData.from_event_dict (Event.get_dict e)).project_url = e.project_url ∧
    (EventData.from_event_dict (Event.get_dict e)).commit_sha = e.commit_sha ∧
    (EventData.from_event_dict (Event.get_dict e)).pr_id = e._pr_id ∧
    (EventData.from_event_dict (Event.get_dict e)).tag_name = e.tag_name ∧
    (EventData.from_event_dict (Event.get_dict e)).git_ref = e.git_ref ∧
    (EventData.from_event_dict (Event.get_dict e)).build_targets_override = some lb ∧
    (EventData.from_event_dict (Event.get_dict e)).tests_targets_override = some lt2 ∧
    (EventData.from_event_dict (Event.get_dict e)).branches_override = some lbr := by
  have hbe : lb.isEmpty = false := by
    cases lb with
    | nil => exact absurd rfl hbne
    | cons a l => rfl
  have hte : lt2.isEmpty = false := by
    cases lt2 with
    | nil => exact absurd rfl htne
    | cons a l => rfl
  have hbre : lbr.isEmpty = false := by
    cases lbr with
    | nil => exact absurd rfl hbrne
    | cons a l => rfl
  refine ⟨?_, rfl, ?_, rfl, rfl, ?_, ?_, ?_⟩
  · simp [EventData.from_event_dict, Event.get_dict, hurl]
  · simp [EventData.from_event_dict, Event.get_dict, py_or_int, hpr]
  · simp [EventData.from_event_dict, Event.get_dict, serialize_override,
      normalize_override, hb, hbe]
  · simp [EventData.from_event_dict, Event.get_dict, serialize_override,
      normalize_override, ht, hte]
  · simp [EventData.from_event_dict, Event.get_dict, serialize_override,
      normalize_override, hbr, hbre]

theorem c1_round_trip_witness :
    (EventData.from_event_dict (Event.get_dict sample_event)).project_url
        = sample_event.project_url ∧
    (EventData.from_event_dict (Event.get_dict sample_event)).commit_sha
        = sample_event.commit_sha ∧
    (EventData.from_event_dict (Event.get_dict sample_event)).pr_id
        = sample_event._pr_id ∧
    (EventData.from_event_dict (Event.get_dict sample_event)).tag_name
        = sample_event.tag_name ∧
    (EventData.from_event_dict (Event.get_dict sample_event)).git_ref
        = sample_event.git_ref ∧
    (EventData.from_event_dict (Event.get_dict sample_event)).build_targets_override
        = some ["fedora-rawhide-x86_64"] ∧
    (EventData.from_event_dict (Event.get_dict sample_event)).tests_targets_override
        = some ["fedora-35-x86_64"] ∧
    (EventData.from_event_dict (Event.get_dict sample_event)).branches_override
        = some ["f34"] :=
  c1_round_trip sample_event rfl rfl
    ["fedora-rawhide-x86_64"] ["fedora-35-x86_64"] ["f34"]
    rfl (by decide) rfl (by decide) rfl (by decide)

/-- Claim C2: `get_most_recent_targets` keeps exactly one record per distinct
target of the input (its target list has no duplicates and carries exactly the
input's targets), every kept record is an input record, and its submission
time is at least that of every same-target input record. -/
theorem c2_most_recent_per_target (models : List RunModel) :
    ((get_most_recent_targets models).map RunModel.target).Nodup ∧
    (∀ t, t ∈ (get_most_recent_targets models).map RunModel.target ↔
      t ∈ models.map RunModel.target) ∧
    (∀ r, r ∈ get_most_recent_targets models → r ∈ models ∧
      ∀ m, m ∈ models → m.target = r.target →
        _get_submitted_time_from_model m ≤ _get_submitted_time_from_model r) := by
  obtain ⟨hnd, hmem, hcov⟩ := mostRecentInv_models models
  have hkeys : (get_most_recent_targets models).map RunModel.target
      = (most_recent_models models).map Prod.fst := by
    unfold get_most_recent_targets
    rw [List.map_map]
    apply List.map_congr_left
    intro kv hkv
    exact (hmem kv hkv).1
  refine ⟨?_, ?_, ?_⟩
  · rw [hkeys]
    exact hnd
  · intro t
    rw [hkeys]
    constructor
    · intro ht
      rcases List.mem_map.mp ht with ⟨kv, hkv, hkvt⟩
      obtain ⟨h1, h2, h3⟩ := hmem kv hkv
      exact List.mem_map.mpr ⟨kv.2, h2, by rw [h1, hkvt]⟩
    · intro ht
      rcases List.mem_map.mp ht with ⟨m, hm, hmt⟩
      have h4 := hcov m hm
      rw [hmt] at h4
      exact h4
  · intro r hr
    rcases List.mem_map.mp hr with ⟨kv, hkv, hkvr⟩
    obtain ⟨h1, h2, h3⟩ := hmem kv hkv
    subst hkvr
    refine ⟨h2, ?_⟩
    intro m hm hmt
    exact h3 m hm (by rw [hmt, h1])

theorem c2_most_recent_per_target_witness :
    _get_submitted_time_from_model (RunModel.copr ⟨"a", 1, "failure"⟩) ≤
      _get_submitted_time_from_model (RunModel.tft ⟨"a", 2, "passed"⟩) :=
  ((c2_most_recent_per_target
      [RunModel.copr ⟨"a", 1, "failure"⟩, RunModel.tft ⟨"a", 2, "passed"⟩]).2.2
    (RunModel.tft ⟨"a", 2, "passed"⟩) (by decide)).2
    (RunModel.copr ⟨"a", 1, "failure"⟩) (by decide) (by decide)

/-- Claim C3: tie-break stability. When the stored representative `r` for a
target and a later-seen record `b` have equal submission times, the strict
less-than comparison keeps `r`: appending `b` leaves the representative
unchanged, so the later record never replaces the earlier one. -/
theorem c3_equal_timestamp_keeps_first (xs : List RunModel) (b r : RunModel)
    (hl : lookupA (most_recent_models xs) b.target = some r)
    (ht : _get_submitted_time_from_model r = _get_submitted_time_from_model b) :
    lookupA (most_recent_models (xs ++ [b])) b.target = some r ∧
    r ∈ get_most_recent_targets (xs ++ [b]) := by
  have hstep : most_recent_models (xs ++ [b])
      = most_recent_step (most_recent_models xs) b := by
    unfold most_recent_models
    rw [List.foldl_append]
    rfl
  have hacc : most_recent_step (most_recent_models xs) b
      = most_recent_models xs := by
    unfold most_recent_step
    rw [hl]
    have hnlt : ¬ _get_submitted_time_from_model r
        < _get_submitted_time_from_model b := by
      rw [ht]
      exact lt_irrefl _
    exact if_neg hnlt
  refine ⟨?_, ?_⟩
  · rw [hstep, hacc]
    exact hl
  · show r ∈ (most_recent_models (xs ++ [b])).map Prod.snd
    rw [hstep, hacc]
    exact List.mem_map_of_mem Prod.snd (lookupA_mem _ _ _ hl)

theorem c3_equal_timestamp_keeps_first_witness :
    lookupA (most_recent_models
        ([RunModel.copr ⟨"a", 5, "success"⟩] ++ [RunModel.tft ⟨"a", 5, "failed"⟩]))
        (RunModel.tft ⟨"a", 5, "failed"⟩).target
      = some (RunModel.copr ⟨"a", 5, "success"⟩) ∧
    RunModel.copr ⟨"a", 5, "success"⟩ ∈ get_most_recent_targets
      ([RunModel.copr ⟨"a", 5, "success"⟩] ++ [RunModel.tft ⟨"a", 5, "failed"⟩]) :=
  c3_equal_timestamp_keeps_first [RunModel.copr ⟨"a", 5, "success"⟩]
    (RunModel.tft ⟨"a", 5, "failed"⟩) (RunModel.copr ⟨"a", 5, "success"⟩)
    (by decide) (by decide)

/-- Claim C4: `_filter_most_recent_models_targets_by_status` returns `None`
exactly when no most-recent representative's status is in the filter list, and
otherwise a non-empty set holding exactly the targets of representatives whose
status is in the list; it never returns an empty set. -/
theorem c4_filter_targets_by_status (models : List RunModel)
    (statuses : List String) :
    (_filter_most_recent_models_targets_by_status models statuses = none ↔
      ∀ m, m ∈ get_most_recent_targets models → m.status ∉ statuses) ∧
    (∀ s, _filter_most_recent_models_targets_by_status models statuses = some s →
      s ≠ [] ∧ ∀ t, t ∈ s ↔ ∃ m, m ∈ get_most_recent_targets models ∧
        m.status ∈ statuses ∧ m.target = t) := by
  have hmem : ∀ t, (t ∈ (get_most_recent_targets models).foldl
      (fun acc m => if m.status ∈ statuses then setAdd acc m.target else acc) []
    ↔ ∃ m, m ∈ get_most_recent_targets models ∧ m.status ∈ statuses ∧
        m.target = t) := by
    intro t
    rw [mem_status_fold statuses (get_most_recent_targets models) [] t]
    simp
  have hval : _filter_most_recent_models_targets_by_status models statuses
      = if ((get_most_recent_targets models).foldl
            (fun acc m => if m.status ∈ statuses then setAdd acc m.target else acc)
            []).isEmpty
        then none
        else some ((get_most_recent_targets models).foldl
            (fun acc m => if m.status ∈ statuses then setAdd acc m.target else acc)
            []) := rfl
  by_cases hfold : ((get_most_recent_targets models).foldl
      (fun acc m => if m.status ∈ statuses then setAdd acc m.target else acc)
      []).isEmpty
  · rw [hval, if_pos hfold]
    have hnil := List.isEmpty_iff.mp hfold
    constructor
    · constructor
      · intro _ m hm hst
        have ht := (hmem m.target).mpr ⟨m, hm, hst, rfl⟩
        rw [hnil] at ht
        simp at ht
      · intro _
        rfl
    · intro s hs
      exact absurd hs (by simp)
  · rw [hval, if_neg hfold]
    have hne : ((get_most_recent_targets models).foldl
        (fun acc m => if m.status ∈ statuses then setAdd acc m.target else acc)
        []) ≠ [] := by
      intro hnil
      rw [hnil] at hfold
      exact hfold rfl
    constructor
    · constructor
      · intro h
        exact absurd h (by simp)
      · intro hall
        exfalso
        rcases List.exists_mem_of_ne_nil _ hne with ⟨t, ht⟩
        rcases (hmem t).mp ht with ⟨m, hm, hst, _⟩
        exact hall m hm hst
    · intro s hs
      injection hs with hseq
      subst hseq
      exact ⟨hne, hmem⟩

theorem c4_filter_targets_by_status_witness :
    (["a"] : List String) ≠ [] ∧
    ∀ t, t ∈ (["a"] : List String) ↔
      ∃ m, m ∈ get_most_recent_targets [RunModel.copr ⟨"a", 1, "failure"⟩] ∧
        m.status ∈ ["failure"] ∧ m.target = t :=
  (c4_filter_targets_by_status [RunModel.copr ⟨"a", 1, "failure"⟩]
    ["failure"]).2 ["a"] (by decide)

/-- Claim C5: `get_all_tf_targets_by_status` is `None` whenever `commit_sha`
is `None`, and `get_all_build_targets_by_status` is `None` whenever
`commit_sha` is `None` or the resolved project's repo name is `None` — in all
cases for every record store, i.e. without consulting the store. -/
theorem c5_short_circuit_missing_keys
    (store1 store2 : String → List RunModel) (statuses : List String)
    (pr : Option String) (sha : String) :
    get_all_tf_targets_by_status none store1 statuses = none ∧
    get_all_build_targets_by_status none pr store1 statuses = none ∧
    get_all_build_targets_by_status (some sha) none store1 statuses = none ∧
    get_all_tf_targets_by_status none store1 statuses
      = get_all_tf_targets_by_status none store2 statuses ∧
    get_all_build_targets_by_status none pr store1 statuses
      = get_all_build_targets_by_status none pr store2 statuses ∧
    get_all_build_targets_by_status (some sha) none store1 statuses
      = get_all_build_targets_by_status (some sha) none store2 statuses := by
  cases pr with
  | none => exact ⟨rfl, rfl, rfl, rfl, rfl, rfl⟩
  | some p => exact ⟨rfl, rfl, rfl, rfl, rfl, rfl⟩

/-- Claim C6: laziness of `trigger_id` in `get_dict`. The serialized
`trigger_id` is the id of the already-cached `_db_trigger` (and `None` when
nothing is cached), and it does not depend on what a `get_db_trigger()`
lookup would return — the lookup is never invoked for this field. -/
theorem c6_trigger_id_is_lazy (e : AbstractForgeIndependentEvent) :
    (Event.get_dict e).trigger_id = e._db_trigger.map (fun t => t.id) ∧
    (∀ l, (Event.get_dict { e with db_lookup := l }).trigger_id
      = (Event.get_dict e).trigger_id) := by
  constructor
  · rfl
  · intro l
    rfl

/-- Claim C7: trigger-type classification. When some registered entry of the
static table matches the event's class (directly or via a superclass in its
mro), `job_config_trigger_type` returns that entry's trigger type — the first
matching entry in table order — independently of any db trigger; when no entry
matches, it returns the resolved db trigger's stored type, or `None` when no
trigger resolves. -/
theorem c7_job_config_trigger_type (table : List (String × JobConfigTriggerType))
    (mro : List String) (db : Option AbstractTriggerDbType) :
    (∀ p, table.find? (fun q => decide (q.1 ∈ mro)) = some p →
      job_config_trigger_type table mro db = some p.2 ∧
      ∀ db2, job_config_trigger_type table mro db2
        = job_config_trigger_type table mro db) ∧
    (table.find? (fun q => decide (q.1 ∈ mro)) = none →
      job_config_trigger_type table mro db
        = db.map (fun t => t.job_config_trigger_type)) := by
  have hlf : lookup_registered_trigger_type table mro
      = (table.find? (fun q => decide (q.1 ∈ mro))).map Prod.snd := by
    induction table with
    | nil => rfl
    | cons p rest ih =>
        obtain ⟨cls, t⟩ := p
        by_cases h : cls ∈ mro
        · simp [lookup_registered_trigger_type, List.find?, h]
        · simp [lookup_registered_trigger_type, List.find?, h, ih]
  constructor
  · intro p hp
    have h1 : lookup_registered_trigger_type table mro = some p.2 := by
      rw [hlf, hp]
      rfl
    constructor
    · unfold job_config_trigger_type
      rw [h1]
    · intro db2
      unfold job_config_trigger_type
      rw [h1]
  · intro hp
    have h1 : lookup_registered_trigger_type table mro = none := by
      rw [hlf, hp]
      rfl
    unfold job_config_trigger_type
    rw [h1]
    cases db with
    | none => rfl
    | some t => rfl

theorem c7_job_config_trigger_type_witness :
    job_config_trigger_type [("ReleaseEvent", JobConfigTriggerType.release)]
        ["ReleaseEvent", "AbstractForgeIndependentEvent", "Event"] none
      = some JobConfigTriggerType.release ∧
    ∀ db2, job_config_trigger_type
        [("ReleaseEvent", JobConfigTriggerType.release)]
        ["ReleaseEvent", "AbstractForgeIndependentEvent", "Event"] db2
      = job_config_trigger_type [("ReleaseEvent", JobConfigTriggerType.release)]
        ["ReleaseEvent", "AbstractForgeIndependentEvent", "Event"] none :=
  (c7_job_config_trigger_type [("ReleaseEvent", JobConfigTriggerType.release)]
      ["ReleaseEvent", "AbstractForgeIndependentEvent", "Event"] none).1
    ("ReleaseEvent", JobConfigTriggerType.release) (by decide)

/-- Claim C8 counterexample: the claim says every lazily-derived field —
including the project handle — is computed at most once per instance even when
the first computation yields none. For the `None`-sentinel properties
(`project`, `base_project`, `db_trigger`) this is false: with `get_project()`
returning `None`, the first access computes once and caches nothing, so the
second access computes again (each access reports one computation). -/
theorem c8_counterexample :
    (lazy_property_get (none : Option GitProject) none).2.2 = 1 ∧
    (lazy_property_get
        ((lazy_property_get (none : Option GitProject) none).2.1) none).2.2 = 1 :=
  ⟨rfl, rfl⟩

/-- Claim C8 (amended): `package_config` is computed at most once per
instance, a none/not-found result included (the searched flag caches the
miss); the `None`-sentinel lazy properties (`project`, `base_project`,
`db_trigger`) cache only a non-`None` first result — after such a result
every later access returns it without recomputing, while a `None` result is
recomputed on each access. -/
theorem c8_amended_memoization {α : Type} (v : α) (compute compute2 : Option α) :
    (package_config_property_get
        (package_config_property_get (none : Option α) false compute).2.1.1
        (package_config_property_get (none : Option α) false compute).2.1.2
        compute2
      = (compute, (compute, true), 0)) ∧
    (lazy_property_get (lazy_property_get (none : Option α) (some v)).2.1 compute2
      = (some v, some v, 0)) ∧
    (lazy_property_get (lazy_property_get (none : Option α) none).2.1 compute2
      = (compute2, compute2, 1)) :=
  ⟨rfl, rfl, rfl⟩

/-- Claim C9: with no `project_url` (absent or empty) and no resolvable db
trigger, `AbstractForgeIndependentEvent.get_project` and
`EventData.get_project` return `None` for every resolver — absence is reported
as none, not an error — and the `project` property then also yields `None`. -/
theorem c9_no_project_resolves_none
    (resolve resolve2 : String → Option GitProject) :
    get_project none none resolve = none ∧
    get_project (some "") none resolve = none ∧
    EventData.get_project none resolve2 = none ∧
    (lazy_property_get (none : Option GitProject)
        (get_project none none resolve)).1 = none := by
  refine ⟨rfl, ?_, rfl, rfl⟩
  unfold get_project
  norm_num [strTruthy]

/-- Claim C10: the empty override collapses into "no override" across the
transport boundary. `EventData.__init__` normalizes an empty override list to
`None`, `Event.get_dict` omits an empty override set, and consequently a
decoded event carries `None` wherever the event had an empty override set. -/
theorem c10_empty_override_collapses (e : AbstractForgeIndependentEvent)
    (d : EventDict) :
    normalize_override (some []) = none ∧
    serialize_override (some []) = none ∧
    (Event.get_dict { e with build_targets_override := some []
                           , tests_targets_override := some []
                           , branches_override := some [] }).build_targets_override
      = none ∧
    (Event.get_dict { e with build_targets_override := some []
                           , tests_targets_override := some []
                           , branches_override := some [] }).tests_targets_override
      = none ∧
    (Event.get_dict { e with build_targets_override := some []
                           , tests_targets_override := some []
                           , branches_override := some [] }).branches_override
      = none ∧
    (EventData.from_event_dict (Event.get_dict
        { e with build_targets_override := some []
               , tests_targets_override := some []
               , branches_override := some [] })).build_targets_override = none ∧
    (EventData.from_event_dict (Event.get_dict
        { e with build_targets_override := some []
               , tests_targets_override := some []
               , branches_override := some [] })).tests_targets_override = none ∧
    (EventData.from_event_dict (Event.get_dict
        { e with build_targets_override := some []
               , tests_targets_override := some []
               , branches_override := some [] })).branches_override = none ∧
    (EventData.from_event_dict
        { d with build_targets_override := some [] }).build_targets_override
      = none ∧
    (EventData.from_event_dict
        { d with tests_targets_override := some [] }).tests_targets_override
      = none ∧
    (EventData.from_event_dict
        { d with branches_override := some [] }).branches_override = none :=
  ⟨rfl, rfl, rfl, rfl, rfl, rfl, rfl, rfl, rfl, rfl, rfl⟩
